import Mathlib

-- Verification development for the letter_box_updates repository.
-- Shallow embedding of the core of src/github_helpers.py
-- (safe_replace_between_tags, list_text_files_in_folder) and of
-- src/streamlit_app.py (build_handlebars), over List Char.
--
-- safe_replace_between_tags compiles the Python regex
--   re.escape(start_tag) + "(.*?)" + re.escape(end_tag)
-- with flags DOTALL | IGNORECASE, raises ValueError when pattern.search
-- fails, and otherwise returns pattern.sub(replacement, original_text)
-- where replacement = start_tag + "\n" + new_inner_text + "\n" + end_tag.
-- The embedding below models exactly that regex (both tags are escaped,
-- so they are literals; the group is non-greedy and spans newlines) and
-- the replace-all, leftmost, shortest-span semantics of re.sub, including
-- the treatment of the replacement string as a template in which
-- backslash escapes are expanded.

/-- Characters of a string literal. -/
def strL (s : String) : List Char := s.toList

/-- Case-insensitive character comparison: models re.IGNORECASE for the
ASCII tag strings this repository uses (Char.toLower lowers ASCII). -/
def ciCharEq (a b : Char) : Bool := a.toLower == b.toLower

/-- ciStartsWith pat l: pat matches case-insensitively at the head of l.
Models matching the re.escape-d literal tag at one position. -/
def ciStartsWith : List Char → List Char → Bool
  | [], _ => true
  | _ :: _, [] => false
  | p :: ps, d :: ds => ciCharEq p d && ciStartsWith ps ds

/-- ciHasSubstr pat l: pat matches case-insensitively at some position of l
(including the position at the very end for the empty pattern). -/
def ciHasSubstr (pat : List Char) : List Char → Bool
  | [] => ciStartsWith pat []
  | c :: rest => ciStartsWith pat (c :: rest) || ciHasSubstr pat rest

/-- hasSubstr pat l: pat occurs in l as an exact (case-sensitive) substring. -/
def hasSubstr (pat : List Char) : List Char → Bool
  | [] => List.isPrefixOf pat []
  | c :: rest => List.isPrefixOf pat (c :: rest) || hasSubstr pat rest

/-- The non-greedy tail of a match: scanning l from the left, stop at the
first position where the end tag matches case-insensitively; return the
characters before that position (the inner group) and the characters after
the end tag. Models the behaviour of the non-greedy group "(.*?)" followed
by the escaped end tag under DOTALL. -/
def splitAtEndTag (e : List Char) : List Char → Option (List Char × List Char)
  | [] => if ciStartsWith e [] then some ([], []) else none
  | c :: rest =>
    if ciStartsWith e (c :: rest) then some ([], (c :: rest).drop e.length)
    else
      match splitAtEndTag e rest with
      | some (inner, r) => some (c :: inner, r)
      | none => none

/-- Leftmost, shortest-span match of the pattern start(.*?)end, case
insensitively: returns (text before the match, the inner group, text after
the match). If the start tag matches at some position but no end-tag
occurrence exists at or after it, then no later start position can complete
the pattern either (the set of candidate end positions only shrinks), so
returning none there agrees with the regex engine trying every later start.
Models pattern.search for this pattern. -/
def findMatch (s e : List Char) : List Char → Option (List Char × List Char × List Char)
  | [] =>
    if ciStartsWith s [] then
      match splitAtEndTag e (([] : List Char).drop s.length) with
      | some (inner, r) => some ([], inner, r)
      | none => none
    else none
  | c :: rest =>
    if ciStartsWith s (c :: rest) then
      match splitAtEndTag e ((c :: rest).drop s.length) with
      | some (inner, r) => some ([], inner, r)
      | none => none
    else
      match findMatch s e rest with
      | some (pre, inner, r) => some (c :: pre, inner, r)
      | none => none

/-- Expansion of the replacement string as a re.sub template, given the text
captured by group 1 of the current match: a double backslash collapses to
one backslash, a backslash before the digit 1 is a reference to group 1 (the
only group of this pattern; a reference to any other single digit expands to
nothing here since those groups do not exist), a backslash before n is a
newline escape, and any other character is copied verbatim. (CPython
additionally rejects some malformed escapes with an exception; no theorem
below depends on those inputs.) -/
def expandRepl (inner : List Char) : List Char → List Char
  | [] => []
  | c :: rest =>
    if c = '\\' then
      match rest with
      | [] => [c]
      | d :: rest2 =>
        if d = '\\' then '\\' :: expandRepl inner rest2
        else if d = '1' then inner ++ expandRepl inner rest2
        else if d = 'n' then '\n' :: expandRepl inner rest2
        else c :: d :: expandRepl inner rest2
    else c :: expandRepl inner rest

/-- One fuelled pass of re.sub for the pattern start(.*?)end: scan left to
right; at each position where the full pattern matches, emit the expanded
replacement and resume after the match; otherwise keep the character and
move on. An all-empty match (both tags empty, empty inner) consumes no
input, so to mirror CPython it is replaced and the scan advances one
character. Fuel decreases by one per step; length l + 1 steps always
suffice, which is what the pythonSub wrapper supplies. -/
def subAllF (s e repl : List Char) : Nat → List Char → List Char
  | 0, l => l
  | _ + 1, [] =>
    if ciStartsWith s [] then
      match splitAtEndTag e [] with
      | some (inner, _) => expandRepl inner repl
      | none => []
    else []
  | fuel + 1, c :: rest =>
    if ciStartsWith s (c :: rest) then
      match splitAtEndTag e ((c :: rest).drop s.length) with
      | some (inner, r) =>
        if s.isEmpty && e.isEmpty && inner.isEmpty then
          expandRepl inner repl ++ c :: subAllF s e repl fuel rest
        else
          expandRepl inner repl ++ subAllF s e repl fuel r
      | none => c :: rest
    else c :: subAllF s e repl fuel rest

/-- pattern.sub(replacement, l) for the pattern start(.*?)end. -/
def pythonSub (s e repl l : List Char) : List Char :=
  subAllF s e repl (l.length + 1) l

/-- The ValueError message raised by safe_replace_between_tags:
f-string "Tags not found: {start_tag} ... {end_tag}". -/
def tagsNotFoundMsg (s e : List Char) : List Char :=
  strL "Tags not found: " ++ (s ++ (strL " ... " ++ e))

/-- github_helpers.safe_replace_between_tags: if the pattern does not occur
in the document, raise ValueError (modelled as Except.error carrying the
message); otherwise substitute every match with
start_tag + "\n" + new_inner_text + "\n" + end_tag. -/
def safe_replace_between_tags (original_text s e new_inner_text : List Char) :
    Except (List Char) (List Char) :=
  match findMatch s e original_text with
  | none => Except.error (tagsNotFoundMsg s e)
  | some _ =>
      Except.ok (pythonSub s e (s ++ '\n' :: new_inner_text ++ '\n' :: e) original_text)

/-- Re-extraction of the region strictly between the tags: group 1 of the
first (leftmost, shortest-span, case-insensitive) match, i.e.
pattern.search(doc).group(1). -/
def extract_between (doc s e : List Char) : Option (List Char) :=
  (findMatch s e doc).map (fun m => m.2.1)

-- -------------------------------------------------------------------
-- streamlit_app.build_handlebars
-- -------------------------------------------------------------------

/-- One donor tier as consumed by build_handlebars. The source stores
min_gift as a Python float of dollars and renders min_gift - 0.01 with
f"{value:0.2f}"; the spec states that monetary amounts carry at most two
decimal digits of precision, so min_gift is modelled exactly as an integer
count of hundredths (cents), making the subtraction of 0.01 the exact
subtraction of one cent. max_gift is carried in the data model but never
read by the builder. -/
structure Tier where
  name : List Char
  title : List Char
  min_gift : Int
  max_gift : Option Int

/-- Fixed-point rendering with exactly two decimal digits of a value given
in hundredths: the result of Python f"{k/100:0.2f}" for a value that is an
exact multiple of 0.01. -/
def twoDecString (k : Int) : List Char :=
  (if k < 0 then ['-'] else []) ++
    (Nat.toDigits 10 (k.natAbs / 100) ++
      '.' :: (if k.natAbs % 100 < 10 then '0' :: Nat.toDigits 10 (k.natAbs % 100)
              else Nat.toDigits 10 (k.natAbs % 100)))

/-- The opening conditional line emitted for a non-last tier: the f-string
f'{{{{#if (compare Gift.amount.value ">" {compare_value_str})}}}}', in which
each doubled brace renders as a single brace, with
compare_value = min_gift - 0.01 (one cent below the threshold). -/
def ifLine (min_gift : Int) : List Char :=
  strL "\x7b\x7b#if (compare Gift.amount.value \">\" " ++
    (twoDecString (min_gift - 1) ++ strL ")\x7d\x7d")

/-- The else-marker line: the source appends the plain (non-f) string
literal "{{{{else}}}}", so the emitted line really contains four braces on
each side. -/
def elseLine : List Char := strL "\x7b\x7b\x7b\x7belse\x7d\x7d\x7d\x7d"

/-- The closing line: the source appends the plain (non-f) string literal
"{{/if}}" written as "{{{{/if}}}}", so the emitted line really contains
four braces on each side. -/
def closeLine : List Char := strL "\x7b\x7b\x7b\x7b/if\x7d\x7d\x7d\x7d"

/-- The rendered block of one tier: "<p>", name, "<br>", title, "</p>",
each its own out_lines entry. -/
def tierBlock (t : Tier) : List (List Char) :=
  [strL "<p>", t.name, strL "<br>", t.title, strL "</p>"]

/-- The loop body of build_handlebars: every tier except the last gets an
opening conditional, its block, and an else marker; the last tier gets only
its block. -/
def bodyLines : List Tier → List (List Char)
  | [] => []
  | [t] => tierBlock t
  | t :: t2 :: rest =>
    (ifLine t.min_gift :: (tierBlock t ++ [elseLine])) ++ bodyLines (t2 :: rest)

/-- The full out_lines list of build_handlebars: the loop body followed by
one closing line per opened conditional (n - 1 of them). -/
def snippetLines (tiers : List Tier) : List (List Char) :=
  bodyLines tiers ++ List.replicate (tiers.length - 1) closeLine

/-- streamlit_app.build_handlebars: empty tier list yields the empty
string, otherwise "\n".join(out_lines). -/
def build_handlebars (tiers : List Tier) : List Char :=
  if tiers.length = 0 then [] else List.intercalate (strL "\n") (snippetLines tiers)

-- -------------------------------------------------------------------
-- github_helpers.list_text_files_in_folder
-- -------------------------------------------------------------------

/-- The two attributes of a PyGithub ContentFile that the listing reads. -/
structure ContentFile where
  name : List Char
  type : List Char

/-- github_helpers.list_text_files_in_folder, with the repo.get_contents
call abstracted as its outcome: an exception (Except.error, any message) or
the list of folder entries. On an exception the function returns the empty
list; otherwise it keeps the entries whose type is "file" and whose
lowercased name ends with ".txt". -/
def list_text_files_in_folder (getResult : Except (List Char) (List ContentFile)) :
    List ContentFile :=
  match getResult with
  | Except.error _ => []
  | Except.ok contents =>
      contents.filter (fun c =>
        c.type == strL "file" && List.isSuffixOf (strL ".txt") (c.name.map Char.toLower))

deriving instance DecidableEq for Except

-- -------------------------------------------------------------------
-- Lemmas about the matching and substitution machinery
-- -------------------------------------------------------------------

/-- A tag matches case-insensitively at the head of any extension of a
case-insensitively equal string. -/
theorem ciStartsWith_of_map_eq (a : List Char) :
    ∀ b t : List Char, a.map Char.toLower = b.map Char.toLower →
      ciStartsWith a (b ++ t) = true := by
  induction a with
  | nil => intro b t _; rfl
  | cons x xs ih =>
    intro b t h
    cases b with
    | nil => simp at h
    | cons y ys =>
      simp only [List.map_cons, List.cons.injEq] at h
      simp [ciStartsWith, ciCharEq, h.1, ih ys t h.2]

/-- Case-insensitively equal strings have equal length. -/
theorem length_eq_of_map_eq (a b : List Char)
    (h : a.map Char.toLower = b.map Char.toLower) : a.length = b.length := by
  have := congrArg List.length h
  simpa using this

/-- Dropping the length of a tag from a document that starts with a
case-insensitively equal copy of it leaves the rest of the document. -/
theorem drop_of_map_eq (a b t : List Char)
    (h : a.map Char.toLower = b.map Char.toLower) :
    (b ++ t).drop a.length = t := by
  rw [length_eq_of_map_eq a b h, List.drop_left]

/-- splitAtEndTag answers immediately when the end tag matches at the head. -/
theorem splitAtEndTag_pos (e l : List Char) (h : ciStartsWith e l = true) :
    splitAtEndTag e l = some ([], l.drop e.length) := by
  cases l with
  | nil => simp [splitAtEndTag, h]
  | cons c rest => simp [splitAtEndTag, h]

/-- splitAtEndTag walks over a region free of end-tag matches. -/
theorem splitAtEndTag_skip (e : List Char) :
    ∀ i X : List Char,
      (∀ p, p < i.length → ciStartsWith e ((i ++ X).drop p) = false) →
      splitAtEndTag e (i ++ X) =
        (splitAtEndTag e X).map (fun pr => (i ++ pr.1, pr.2)) := by
  intro i
  induction i with
  | nil =>
    intro X _
    cases hx : splitAtEndTag e X with
    | none => simp [hx]
    | some pr => simp [hx]
  | cons c i' ih =>
    intro X h
    have h0 : ciStartsWith e (c :: (i' ++ X)) = false := by
      have := h 0 (by simp)
      simpa using this
    have hshift : ∀ p, p < i'.length → ciStartsWith e ((i' ++ X).drop p) = false := by
      intro p hp
      have := h (p + 1) (by simpa using Nat.succ_lt_succ hp)
      simpa using this
    rw [List.cons_append, splitAtEndTag, h0]
    simp only [Bool.false_eq_true, if_false]
    rw [ih X hshift]
    cases splitAtEndTag e X with
    | none => simp
    | some pr => simp

/-- The head of a non-greedy search through an inner region followed by a
case-insensitive copy of the end tag: the group is exactly the inner region
and the scan resumes right after the end tag. -/
theorem splitAtEndTag_found (e e' i t : List Char)
    (he : e.map Char.toLower = e'.map Char.toLower)
    (h : ∀ p, p < i.length → ciStartsWith e ((i ++ (e' ++ t)).drop p) = false) :
    splitAtEndTag e (i ++ (e' ++ t)) = some (i, t) := by
  rw [splitAtEndTag_skip e i (e' ++ t) h,
    splitAtEndTag_pos e (e' ++ t) (ciStartsWith_of_map_eq e e' t he),
    drop_of_map_eq e e' t he]
  simp

/-- findMatch answers at the head as soon as the start tag matches there and
the non-greedy end search succeeds. -/
theorem findMatch_pos (s e l inner r : List Char) (h1 : ciStartsWith s l = true)
    (h2 : splitAtEndTag e (l.drop s.length) = some (inner, r)) :
    findMatch s e l = some ([], inner, r) := by
  cases l with
  | nil => simp [findMatch, h1, h2] at h2 ⊢; simp [h2]
  | cons c rest => simp [findMatch, h1, h2]

/-- findMatch walks over a region free of start-tag matches. -/
theorem findMatch_skip (s e : List Char) :
    ∀ A X : List Char,
      (∀ p, p < A.length → ciStartsWith s ((A ++ X).drop p) = false) →
      findMatch s e (A ++ X) =
        (findMatch s e X).map (fun m => (A ++ m.1, m.2.1, m.2.2)) := by
  intro A
  induction A with
  | nil =>
    intro X _
    cases hx : findMatch s e X with
    | none => simp [hx]
    | some m => simp [hx]
  | cons c A' ih =>
    intro X h
    have h0 : ciStartsWith s (c :: (A' ++ X)) = false := by
      have := h 0 (by simp)
      simpa using this
    have hshift : ∀ p, p < A'.length → ciStartsWith s ((A' ++ X).drop p) = false := by
      intro p hp
      have := h (p + 1) (by simpa using Nat.succ_lt_succ hp)
      simpa using this
    rw [List.cons_append, findMatch, h0]
    simp only [Bool.false_eq_true, if_false]
    rw [ih X hshift]
    cases findMatch s e X with
    | none => simp
    | some m => simp

/-- The substitution walks unchanged over a region free of start-tag
matches, spending one unit of fuel per character. -/
theorem subAllF_skip (s e repl : List Char) :
    ∀ (A X : List Char) (f : Nat),
      (∀ p, p < A.length → ciStartsWith s ((A ++ X).drop p) = false) →
      subAllF s e repl (A.length + f) (A ++ X) = A ++ subAllF s e repl f X := by
  intro A
  induction A with
  | nil => intro X f _; simp
  | cons c A' ih =>
    intro X f h
    have h0 : ciStartsWith s (c :: (A' ++ X)) = false := by
      have := h 0 (by simp)
      simpa using this
    have hshift : ∀ p, p < A'.length → ciStartsWith s ((A' ++ X).drop p) = false := by
      intro p hp
      have := h (p + 1) (by simpa using Nat.succ_lt_succ hp)
      simpa using this
    have hf : (c :: A').length + f = (A'.length + f) + 1 := by
      simp [List.length_cons]
      omega
    rw [List.cons_append, hf, subAllF, h0]
    simp only [Bool.false_eq_true, if_false]
    rw [ih X f hshift]
    rfl

/-- The substitution at the head of a match: a case-insensitive copy of the
start tag, an inner region free of end-tag matches, a case-insensitive copy
of the end tag. One replacement is emitted and the scan resumes after the
matched span with one unit of fuel spent. -/
theorem subAllF_step (s s' e e' i t repl : List Char) (f : Nat)
    (hs : s.map Char.toLower = s'.map Char.toLower)
    (he : e.map Char.toLower = e'.map Char.toLower)
    (hne : s ≠ [])
    (hI : ∀ p, p < i.length → ciStartsWith e ((i ++ (e' ++ t)).drop p) = false) :
    subAllF s e repl (f + 1) (s' ++ (i ++ (e' ++ t))) =
      expandRepl i repl ++ subAllF s e repl f t := by
  cases s' with
  | nil =>
    exfalso
    apply hne
    have : s.map Char.toLower = [] := by simpa using hs
    simpa using this
  | cons c s'' =>
    have hguard : ciStartsWith s (c :: (s'' ++ (i ++ (e' ++ t)))) = true := by
      have := ciStartsWith_of_map_eq s (c :: s'') (i ++ (e' ++ t)) hs
      simpa using this
    have hdrop : (c :: (s'' ++ (i ++ (e' ++ t)))).drop s.length = i ++ (e' ++ t) := by
      have := drop_of_map_eq s (c :: s'') (i ++ (e' ++ t)) hs
      simpa using this
    have hsplit : splitAtEndTag e (i ++ (e' ++ t)) = some (i, t) :=
      splitAtEndTag_found e e' i t he hI
    have hsE : s.isEmpty = false := by
      cases s with
      | nil => exact absurd rfl hne
      | cons a as => rfl
    rw [List.cons_append, subAllF, hguard]
    simp only [if_true]
    rw [hdrop, hsplit]
    simp [hsE]

/-- Where findMatch sees nothing, the substitution returns the document
unchanged, whatever the fuel. -/
theorem subAllF_nomatch (s e repl : List Char) :
    ∀ (l : List Char) (f : Nat),
      findMatch s e l = none → subAllF s e repl f l = l := by
  intro l
  induction l with
  | nil =>
    intro f h
    cases f with
    | zero => rfl
    | succ f' =>
      by_cases hg : ciStartsWith s [] = true
      · cases hsp : splitAtEndTag e ([] : List Char) with
        | some v => simp [findMatch, hg, hsp] at h
        | none => simp [subAllF, hg, hsp]
      · have hg' : ciStartsWith s [] = false := by simpa using hg
        simp [subAllF, hg']
  | cons c rest ih =>
    intro f h
    cases f with
    | zero => rfl
    | succ f' =>
      by_cases hg : ciStartsWith s (c :: rest) = true
      · cases hsp : splitAtEndTag e ((c :: rest).drop s.length) with
        | some v => simp [findMatch, hg, hsp] at h
        | none => simp [subAllF, hg, hsp]
      · have hg' : ciStartsWith s (c :: rest) = false := by simpa using hg
        have hrest : findMatch s e rest = none := by
          rw [findMatch, hg'] at h
          simp only [Bool.false_eq_true, if_false] at h
          cases hr : findMatch s e rest with
          | none => rfl
          | some m => rw [hr] at h; simp at h
        simp [subAllF, hg', ih f' hrest]

/-- Template expansion copies a character that is not a backslash. -/
theorem expandRepl_cons_ne (inner : List Char) (c : Char) (rest : List Char)
    (hc : ¬ c = '\\') :
    expandRepl inner (c :: rest) = c :: expandRepl inner rest := by
  conv_lhs => rw [expandRepl.eq_def]
  simp [hc]

/-- A backslash-free replacement string expands to itself: template
expansion is the identity on it. -/
theorem expandRepl_eq_self (inner : List Char) :
    ∀ repl : List Char, '\\' ∉ repl → expandRepl inner repl = repl := by
  intro repl
  induction repl with
  | nil => intro _; rfl
  | cons c rest ih =>
    intro h
    have hc : ¬ c = '\\' := by
      intro hc
      exact h (hc ▸ List.mem_cons_self c rest)
    have hrest : '\\' ∉ rest := fun hm => h (List.mem_cons_of_mem c hm)
    rw [expandRepl_cons_ne inner c rest hc, ih hrest]

/-- Master lemma, single occurrence: a document decomposed as
A ++ s' ++ i ++ e' ++ B, where s' and e' are case-insensitive copies of the
searched tags, A contains no start-tag match, i contains no end-tag match
and B contains no full match, is rewritten to
A ++ (start_tag \n new_inner \n end_tag) ++ B, provided the searched tags
and the new inner text are free of backslashes (so that re.sub template
expansion is the identity). -/
theorem replace_single (A B s' e' i s e inner : List Char)
    (hs : s.map Char.toLower = s'.map Char.toLower)
    (he : e.map Char.toLower = e'.map Char.toLower)
    (hne : s ≠ [])
    (hA : ∀ p, p < A.length →
      ciStartsWith s ((A ++ (s' ++ (i ++ (e' ++ B)))).drop p) = false)
    (hI : ∀ p, p < i.length → ciStartsWith e ((i ++ (e' ++ B)).drop p) = false)
    (hB : findMatch s e B = none)
    (hbs : '\\' ∉ s) (hbe : '\\' ∉ e) (hbi : '\\' ∉ inner) :
    safe_replace_between_tags (A ++ (s' ++ (i ++ (e' ++ B)))) s e inner =
      Except.ok (A ++ ((s ++ '\n' :: inner ++ '\n' :: e) ++ B)) := by
  have hguard : ciStartsWith s (s' ++ (i ++ (e' ++ B))) = true :=
    ciStartsWith_of_map_eq s s' (i ++ (e' ++ B)) hs
  have hdrop : (s' ++ (i ++ (e' ++ B))).drop s.length = i ++ (e' ++ B) :=
    drop_of_map_eq s s' _ hs
  have hsplit : splitAtEndTag e (i ++ (e' ++ B)) = some (i, B) :=
    splitAtEndTag_found e e' i B he hI
  have hfm : findMatch s e (A ++ (s' ++ (i ++ (e' ++ B)))) = some (A, i, B) := by
    rw [findMatch_skip s e A _ hA,
      findMatch_pos s e (s' ++ (i ++ (e' ++ B))) i B hguard
        (by rw [hdrop]; exact hsplit)]
    simp
  have hrepl : '\\' ∉ (s ++ '\n' :: inner ++ '\n' :: e) := by
    simp only [List.mem_append, List.mem_cons]
    push_neg
    exact ⟨⟨hbs, by decide, hbi⟩, by decide, hbe⟩
  simp only [safe_replace_between_tags, hfm, pythonSub]
  have hfuellen : (A ++ (s' ++ (i ++ (e' ++ B)))).length + 1
      = A.length + ((s' ++ (i ++ (e' ++ B))).length + 1) := by
    simp only [List.length_append]
    omega
  rw [hfuellen, subAllF_skip s e _ A _ _ hA,
    subAllF_step s s' e e' i B _ ((s' ++ (i ++ (e' ++ B))).length) hs he hne hI,
    subAllF_nomatch s e _ B _ hB,
    expandRepl_eq_self i _ hrepl]

/-- Master lemma, two occurrences: in a document containing two disjoint
matched spans (with the regions before, between and after them free of
further matches), re.sub rewrites BOTH spans with the same replacement
text: the second occurrence is not left untouched. -/
theorem replace_double (A B C s1 s2 e1 e2 i1 i2 s e inner : List Char)
    (hs1 : s.map Char.toLower = s1.map Char.toLower)
    (hs2 : s.map Char.toLower = s2.map Char.toLower)
    (he1 : e.map Char.toLower = e1.map Char.toLower)
    (he2 : e.map Char.toLower = e2.map Char.toLower)
    (hne : s ≠ [])
    (hA : ∀ p, p < A.length →
      ciStartsWith s
        ((A ++ (s1 ++ (i1 ++ (e1 ++ (B ++ (s2 ++ (i2 ++ (e2 ++ C)))))))).drop p)
        = false)
    (hI1 : ∀ p, p < i1.length →
      ciStartsWith e
        ((i1 ++ (e1 ++ (B ++ (s2 ++ (i2 ++ (e2 ++ C)))))).drop p) = false)
    (hB : ∀ p, p < B.length →
      ciStartsWith s ((B ++ (s2 ++ (i2 ++ (e2 ++ C)))).drop p) = false)
    (hI2 : ∀ p, p < i2.length →
      ciStartsWith e ((i2 ++ (e2 ++ C)).drop p) = false)
    (hC : findMatch s e C = none)
    (hbs : '\\' ∉ s) (hbe : '\\' ∉ e) (hbi : '\\' ∉ inner) :
    safe_replace_between_tags
        (A ++ (s1 ++ (i1 ++ (e1 ++ (B ++ (s2 ++ (i2 ++ (e2 ++ C)))))))) s e inner =
      Except.ok (A ++ ((s ++ '\n' :: inner ++ '\n' :: e) ++
        (B ++ ((s ++ '\n' :: inner ++ '\n' :: e) ++ C)))) := by
  have hguard : ciStartsWith s (s1 ++ (i1 ++ (e1 ++ (B ++ (s2 ++ (i2 ++ (e2 ++ C))))))) = true :=
    ciStartsWith_of_map_eq s s1 _ hs1
  have hdrop : (s1 ++ (i1 ++ (e1 ++ (B ++ (s2 ++ (i2 ++ (e2 ++ C))))))).drop s.length
      = i1 ++ (e1 ++ (B ++ (s2 ++ (i2 ++ (e2 ++ C))))) :=
    drop_of_map_eq s s1 _ hs1
  have hsplit : splitAtEndTag e (i1 ++ (e1 ++ (B ++ (s2 ++ (i2 ++ (e2 ++ C))))))
      = some (i1, B ++ (s2 ++ (i2 ++ (e2 ++ C)))) :=
    splitAtEndTag_found e e1 i1 (B ++ (s2 ++ (i2 ++ (e2 ++ C)))) he1 hI1
  have hfm : findMatch s e (A ++ (s1 ++ (i1 ++ (e1 ++ (B ++ (s2 ++ (i2 ++ (e2 ++ C))))))))
      = some (A, i1, B ++ (s2 ++ (i2 ++ (e2 ++ C)))) := by
    rw [findMatch_skip s e A _ hA,
      findMatch_pos s e _ i1 (B ++ (s2 ++ (i2 ++ (e2 ++ C)))) hguard
        (by rw [hdrop]; exact hsplit)]
    simp
  have hrepl : '\\' ∉ (s ++ '\n' :: inner ++ '\n' :: e) := by
    simp only [List.mem_append, List.mem_cons]
    push_neg
    exact ⟨⟨hbs, by decide, hbi⟩, by decide, hbe⟩
  have hspos : 1 ≤ s1.length := by
    have hlen := length_eq_of_map_eq s s1 hs1
    cases s with
    | nil => exact absurd rfl hne
    | cons a as => rw [← hlen]; simp
  simp only [safe_replace_between_tags, hfm, pythonSub]
  have hfuellen :
      (A ++ (s1 ++ (i1 ++ (e1 ++ (B ++ (s2 ++ (i2 ++ (e2 ++ C)))))))).length + 1
      = A.length +
        ((s1 ++ (i1 ++ (e1 ++ (B ++ (s2 ++ (i2 ++ (e2 ++ C))))))).length + 1) := by
    simp only [List.length_append]
    omega
  rw [hfuellen, subAllF_skip s e _ A _ _ hA,
    subAllF_step s s1 e e1 i1 (B ++ (s2 ++ (i2 ++ (e2 ++ C)))) _
      ((s1 ++ (i1 ++ (e1 ++ (B ++ (s2 ++ (i2 ++ (e2 ++ C))))))).length) hs1 he1 hne hI1]
  have hf2 : (s1 ++ (i1 ++ (e1 ++ (B ++ (s2 ++ (i2 ++ (e2 ++ C))))))).length
      = B.length +
        ((s1.length + i1.length + e1.length + (s2 ++ (i2 ++ (e2 ++ C))).length - 1) + 1) := by
    simp only [List.length_append]
    omega
  rw [hf2, subAllF_skip s e _ B _ _ hB,
    subAllF_step s s2 e e2 i2 C _
      (s1.length + i1.length + e1.length + (s2 ++ (i2 ++ (e2 ++ C))).length - 1)
      hs2 he2 hne hI2,
    subAllF_nomatch s e _ C _ hC,
    expandRepl_eq_self i1 _ hrepl, expandRepl_eq_self i2 _ hrepl]

-- -------------------------------------------------------------------
-- Lemmas about occurrence testing
-- -------------------------------------------------------------------

/-- A list is a prefix (under BEq) of itself extended by anything. -/
theorem isPrefixOf_self_append (pat t : List Char) :
    List.isPrefixOf pat (pat ++ t) = true := by
  induction pat with
  | nil => simp [List.isPrefixOf]
  | cons c cs ih => simp [List.isPrefixOf, ih]

/-- A prefix occurrence is an occurrence. -/
theorem hasSubstr_of_isPrefixOf (pat l : List Char)
    (h : List.isPrefixOf pat l = true) : hasSubstr pat l = true := by
  cases l with
  | nil => exact h
  | cons c rest => simp [hasSubstr, h]

/-- An explicit decomposition witnesses an exact substring occurrence. -/
theorem hasSubstr_of_decomp (pat : List Char) :
    ∀ X Y : List Char, hasSubstr pat (X ++ (pat ++ Y)) = true := by
  intro X
  induction X with
  | nil =>
    intro Y
    exact hasSubstr_of_isPrefixOf pat (pat ++ Y) (isPrefixOf_self_append pat Y)
  | cons c X' ih =>
    intro Y
    simp only [List.cons_append, hasSubstr, List.append_eq]
    rw [ih Y]
    simp

/-- No case-insensitive occurrence in a list means none in its tail. -/
theorem ciHasSubstr_tail (pat : List Char) (c : Char) (rest : List Char)
    (h : ciHasSubstr pat (c :: rest) = false) : ciHasSubstr pat rest = false := by
  rw [ciHasSubstr] at h
  exact (Bool.or_eq_false_iff.mp h).2

/-- No case-insensitive occurrence in a list means none at its head. -/
theorem ciStartsWith_false_of_no_substr (pat : List Char) (c : Char) (rest : List Char)
    (h : ciHasSubstr pat (c :: rest) = false) : ciStartsWith pat (c :: rest) = false := by
  rw [ciHasSubstr] at h
  exact (Bool.or_eq_false_iff.mp h).1

/-- No case-insensitive occurrence in a list means none in any suffix. -/
theorem ciHasSubstr_drop (pat : List Char) :
    ∀ (l : List Char) (k : Nat), ciHasSubstr pat l = false →
      ciHasSubstr pat (l.drop k) = false := by
  intro l
  induction l with
  | nil => intro k h; simpa using h
  | cons c rest ih =>
    intro k h
    cases k with
    | zero => exact h
    | succ k' => exact ih k' (ciHasSubstr_tail pat c rest h)

/-- If the end tag has no case-insensitive occurrence, the non-greedy end
search fails. -/
theorem splitAtEndTag_none (e : List Char) :
    ∀ l : List Char, ciHasSubstr e l = false → splitAtEndTag e l = none := by
  intro l
  induction l with
  | nil =>
    intro h
    have : ciStartsWith e [] = false := by simpa [ciHasSubstr] using h
    simp [splitAtEndTag, this]
  | cons c rest ih =>
    intro h
    have h1 := ciStartsWith_false_of_no_substr e c rest h
    have h2 := ih (ciHasSubstr_tail e c rest h)
    simp [splitAtEndTag, h1, h2]

/-- The search fails when the start tag occurs nowhere (case-insensitively). -/
theorem findMatch_none_of_no_start (s e : List Char) :
    ∀ doc : List Char, ciHasSubstr s doc = false → findMatch s e doc = none := by
  intro doc
  induction doc with
  | nil =>
    intro h
    have : ciStartsWith s [] = false := by simpa [ciHasSubstr] using h
    simp [findMatch, this]
  | cons c rest ih =>
    intro h
    have h1 := ciStartsWith_false_of_no_substr s c rest h
    have h2 := ih (ciHasSubstr_tail s c rest h)
    simp [findMatch, h1, h2]

/-- The search fails when the end tag occurs nowhere (case-insensitively). -/
theorem findMatch_none_of_no_end (s e : List Char) :
    ∀ doc : List Char, ciHasSubstr e doc = false → findMatch s e doc = none := by
  intro doc
  induction doc with
  | nil =>
    intro h
    have hsp : splitAtEndTag e [] = none := splitAtEndTag_none e [] h
    by_cases hg : ciStartsWith s [] = true
    · simp [findMatch, hg, hsp]
    · have hg' : ciStartsWith s [] = false := by simpa using hg
      simp [findMatch, hg']
  | cons c rest ih =>
    intro h
    have h2 := ih (ciHasSubstr_tail e c rest h)
    by_cases hg : ciStartsWith s (c :: rest) = true
    · have hsp : splitAtEndTag e ((c :: rest).drop s.length) = none := by
        apply splitAtEndTag_none
        apply ciHasSubstr_drop
        exact h
      simp [findMatch, hg, hsp]
    · have hg' : ciStartsWith s (c :: rest) = false := by simpa using hg
      simp [findMatch, hg', h2]

-- -------------------------------------------------------------------
-- Lemmas about the snippet builder
-- -------------------------------------------------------------------

/-- A line is an opening conditional marker when it starts with the five
characters of an if-opener. -/
def isIfLine (l : List Char) : Bool := List.isPrefixOf (strL "\x7b\x7b#if") l

/-- Number of opening conditional marker lines. -/
def countOpens (ls : List (List Char)) : Nat := (ls.filter isIfLine).length

/-- Number of closing marker lines. -/
def countCloses (ls : List (List Char)) : Nat := List.count closeLine ls

/-- The guarded segments: what the builder emits for every tier except the
last (opening conditional, block, else marker, per tier). -/
def guarded : List Tier → List (List Char)
  | [] => []
  | u :: us => ifLine u.min_gift :: ((tierBlock u ++ [elseLine]) ++ guarded us)

/-- The loop body splits into the guarded segments of all tiers but the
last, followed by the bare block of the last tier. -/
theorem bodyLines_append_last (t : Tier) :
    ∀ ts : List Tier, bodyLines (ts ++ [t]) = guarded ts ++ tierBlock t := by
  intro ts
  induction ts with
  | nil => rfl
  | cons u us ih =>
    cases us with
    | nil =>
      simp [bodyLines, guarded, tierBlock]
    | cons v vs =>
      simp only [List.cons_append, List.append_eq, bodyLines] at ih ⊢
      rw [ih]
      simp [guarded, List.append_assoc]

/-- Every non-last tier contributes its opening conditional line. -/
theorem ifLine_mem_guarded (u : Tier) :
    ∀ ts : List Tier, u ∈ ts → ifLine u.min_gift ∈ guarded ts := by
  intro ts
  induction ts with
  | nil => intro h; simp at h
  | cons v vs ih =>
    intro h
    rcases List.mem_cons.mp h with h1 | h2
    · rw [h1]; exact List.mem_cons_self _ _
    · exact List.mem_cons_of_mem _ (List.mem_append_right _ (ih h2))

/-- An opening conditional line is recognised as such. -/
theorem isIfLine_ifLine (k : Int) : isIfLine (ifLine k) = true := rfl

/-- An opening conditional line is never the closing marker line. -/
theorem ifLine_ne_closeLine (k : Int) : ifLine k ≠ closeLine := by
  intro h
  have h3 : (ifLine k).take 3 = strL "\x7b\x7b#" := rfl
  rw [h] at h3
  exact absurd h3 (by decide)

/-- countOpens distributes over concatenation. -/
theorem countOpens_append (a b : List (List Char)) :
    countOpens (a ++ b) = countOpens a + countOpens b := by
  simp [countOpens, List.filter_append]

/-- countCloses distributes over concatenation. -/
theorem countCloses_append (a b : List (List Char)) :
    countCloses (a ++ b) = countCloses a + countCloses b := by
  simp [countCloses]

/-- Closing lines are not opening lines. -/
theorem countOpens_replicate_close (k : Nat) :
    countOpens (List.replicate k closeLine) = 0 := by
  induction k with
  | zero => rfl
  | succ k' ih =>
    have hc : isIfLine closeLine = false := by decide
    simp only [List.replicate_succ, countOpens, List.filter_cons, hc]
    simpa [countOpens] using ih

/-- The closing block contributes exactly its length to countCloses. -/
theorem countCloses_replicate_close (k : Nat) :
    countCloses (List.replicate k closeLine) = k := by
  simp [countCloses]

/-- A tier block contains no opening conditional line, provided the tier
name and title are not themselves opening conditional lines. -/
theorem countOpens_block (t : Tier) (h1 : isIfLine t.name = false)
    (h2 : isIfLine t.title = false) : countOpens (tierBlock t) = 0 := by
  have hp : isIfLine (strL "<p>") = false := by decide
  have hb : isIfLine (strL "<br>") = false := by decide
  have hq : isIfLine (strL "</p>") = false := by decide
  simp [countOpens, tierBlock, List.filter_cons, h1, h2, hp, hb, hq]

/-- A tier block contains no closing line, provided the tier name and title
are not themselves the closing line. -/
theorem countCloses_block (t : Tier) (h1 : t.name ≠ closeLine)
    (h2 : t.title ≠ closeLine) : countCloses (tierBlock t) = 0 := by
  have hb1 : (t.name == closeLine) = false := beq_eq_false_iff_ne.mpr h1
  have hb2 : (t.title == closeLine) = false := beq_eq_false_iff_ne.mpr h2
  have hp : ((strL "<p>" : List Char) == closeLine) = false := by decide
  have hr : ((strL "<br>" : List Char) == closeLine) = false := by decide
  have hq : ((strL "</p>" : List Char) == closeLine) = false := by decide
  simp [countCloses, tierBlock, List.count_cons, hb1, hb2, hp, hr, hq]

/-- The guarded segments contain exactly one opening conditional line per
tier (under the same non-degeneracy condition on names and titles). -/
theorem countOpens_guarded :
    ∀ ts : List Tier,
      (∀ u ∈ ts, isIfLine u.name = false ∧ isIfLine u.title = false) →
      countOpens (guarded ts) = ts.length := by
  intro ts
  induction ts with
  | nil => intro _; rfl
  | cons u us ih =>
    intro h
    have hu := h u (List.mem_cons_self u us)
    have hus : ∀ v ∈ us, isIfLine v.name = false ∧ isIfLine v.title = false :=
      fun v hv => h v (List.mem_cons_of_mem u hv)
    have he : isIfLine elseLine = false := by decide
    have hopen : countOpens (guarded (u :: us))
        = countOpens [ifLine u.min_gift] + (countOpens (tierBlock u)
          + (countOpens [elseLine] + countOpens (guarded us))) := by
      rw [guarded]
      rw [show ifLine u.min_gift :: ((tierBlock u ++ [elseLine]) ++ guarded us)
          = [ifLine u.min_gift] ++ ((tierBlock u ++ ([elseLine] ++ guarded us))) from by
        simp [List.append_assoc]]
      rw [countOpens_append, countOpens_append, countOpens_append]
    rw [hopen, countOpens_block u hu.1 hu.2, ih hus]
    have h1 : countOpens [ifLine u.min_gift] = 1 := by
      simp [countOpens, List.filter_cons, isIfLine_ifLine]
    have h2 : countOpens [elseLine] = 0 := by
      simp [countOpens, List.filter_cons, he]
    rw [h1, h2]
    simp [Nat.add_comm]

/-- The guarded segments contain no closing line (under the same
non-degeneracy condition on names and titles). -/
theorem countCloses_guarded :
    ∀ ts : List Tier,
      (∀ u ∈ ts, u.name ≠ closeLine ∧ u.title ≠ closeLine) →
      countCloses (guarded ts) = 0 := by
  intro ts
  induction ts with
  | nil => intro _; rfl
  | cons u us ih =>
    intro h
    have hu := h u (List.mem_cons_self u us)
    have hus : ∀ v ∈ us, v.name ≠ closeLine ∧ v.title ≠ closeLine :=
      fun v hv => h v (List.mem_cons_of_mem u hv)
    have hclose : countCloses (guarded (u :: us))
        = countCloses [ifLine u.min_gift] + (countCloses (tierBlock u)
          + (countCloses [elseLine] + countCloses (guarded us))) := by
      rw [guarded]
      rw [show ifLine u.min_gift :: ((tierBlock u ++ [elseLine]) ++ guarded us)
          = [ifLine u.min_gift] ++ ((tierBlock u ++ ([elseLine] ++ guarded us))) from by
        simp [List.append_assoc]]
      rw [countCloses_append, countCloses_append, countCloses_append]
    rw [hclose, countCloses_block u hu.1 hu.2, ih hus]
    have h1 : countCloses [ifLine u.min_gift] = 0 := by
      have := ifLine_ne_closeLine u.min_gift
      simp [countCloses, List.count_cons, beq_eq_false_iff_ne.mpr this]
    have h2 : countCloses [elseLine] = 0 := by decide
    rw [h1, h2]

-- -------------------------------------------------------------------
-- Claim theorems
-- -------------------------------------------------------------------

/-- C2: build_handlebars on the two-tier example (min_gift 10000 then 500)
emits one opening conditional with threshold 9999.99 and the two blocks,
but the else marker and the closing marker come from plain (non-f) string
literals, so the output contains the four-brace lines written here, and
those are not the two-brace else and closing markers that the claim and the
function docstring show. -/
theorem claim2_four_brace_markers :
    build_handlebars
        [⟨strL "Alice", strL "CEO", 1000000, none⟩, ⟨strL "Bob", strL "VP", 50000, none⟩]
      = strL "\x7b\x7b#if (compare Gift.amount.value \">\" 9999.99)\x7d\x7d\n<p>\nAlice\n<br>\nCEO\n</p>\n\x7b\x7b\x7b\x7belse\x7d\x7d\x7d\x7d\n<p>\nBob\n<br>\nVP\n</p>\n\x7b\x7b\x7b\x7b/if\x7d\x7d\x7d\x7d"
    ∧ elseLine ≠ strL "\x7b\x7belse\x7d\x7d"
    ∧ closeLine ≠ strL "\x7b\x7b/if\x7d\x7d" := by
  exact ⟨by decide, by decide, by decide⟩

/-- C7: for a non-empty tier list (written ts ++ [t]), the snippet line
list has exactly n - 1 opening conditional lines and n - 1 closing lines,
and the loop body is the guarded segments of all tiers except the last
followed by the bare block of the last tier (the unconditional catch-all).
The hypotheses only exclude degenerate tiers whose name or title is itself
a marker line. -/
theorem claim7_marker_counts (ts : List Tier) (t : Tier)
    (hO : ∀ u ∈ ts ++ [t], isIfLine u.name = false ∧ isIfLine u.title = false)
    (hC : ∀ u ∈ ts ++ [t], u.name ≠ closeLine ∧ u.title ≠ closeLine) :
    countOpens (snippetLines (ts ++ [t])) = (ts ++ [t]).length - 1 ∧
    countCloses (snippetLines (ts ++ [t])) = (ts ++ [t]).length - 1 ∧
    bodyLines (ts ++ [t]) = guarded ts ++ tierBlock t ∧
    build_handlebars (ts ++ [t])
      = List.intercalate (strL "\n") (snippetLines (ts ++ [t])) := by
  have hlen : (ts ++ [t]).length - 1 = ts.length := by simp
  have ht := hO t (by simp)
  have htc := hC t (by simp)
  have hOts : ∀ u ∈ ts, isIfLine u.name = false ∧ isIfLine u.title = false :=
    fun u hu => hO u (List.mem_append_left _ hu)
  have hCts : ∀ u ∈ ts, u.name ≠ closeLine ∧ u.title ≠ closeLine :=
    fun u hu => hC u (List.mem_append_left _ hu)
  have hne0 : ¬ (ts ++ [t]).length = 0 := by simp
  refine ⟨?_, ?_, bodyLines_append_last t ts, by simp [build_handlebars, hne0]⟩
  · rw [snippetLines, countOpens_append, bodyLines_append_last t ts, countOpens_append,
      countOpens_guarded ts hOts, countOpens_block t ht.1 ht.2,
      countOpens_replicate_close, hlen]
    omega
  · rw [snippetLines, countCloses_append, bodyLines_append_last t ts, countCloses_append,
      countCloses_guarded ts hCts, countCloses_block t htc.1 htc.2,
      countCloses_replicate_close, hlen]
    omega

/-- C7 witness: concrete two-tier instance of claim7_marker_counts. -/
theorem claim7_marker_counts_witness :
    countOpens (snippetLines
        ([⟨strL "Alice", strL "CEO", 1000000, none⟩] ++ [⟨strL "Bob", strL "VP", 50000, none⟩]))
      = ([(⟨strL "Alice", strL "CEO", 1000000, none⟩ : Tier)] ++
          [(⟨strL "Bob", strL "VP", 50000, none⟩ : Tier)]).length - 1 :=
  (claim7_marker_counts [⟨strL "Alice", strL "CEO", 1000000, none⟩]
    ⟨strL "Bob", strL "VP", 50000, none⟩ (by decide) (by decide)).1

/-- C8: every tier u except the last contributes an opening conditional
line whose threshold is min_gift minus one cent rendered with exactly two
decimal digits, and a min_gift of 10000 dollars (1000000 cents) renders as
9999.99. -/
theorem claim8_threshold_rendering (ts : List Tier) (t u : Tier) (hu : u ∈ ts) :
    ifLine u.min_gift ∈ snippetLines (ts ++ [t]) ∧
    ifLine u.min_gift
      = strL "\x7b\x7b#if (compare Gift.amount.value \">\" "
        ++ (twoDecString (u.min_gift - 1) ++ strL ")\x7d\x7d") ∧
    twoDecString (1000000 - 1) = strL "9999.99" := by
  refine ⟨?_, rfl, by decide⟩
  rw [snippetLines, bodyLines_append_last t ts]
  exact List.mem_append_left _ (List.mem_append_left _ (ifLine_mem_guarded u ts hu))

/-- C8 witness: concrete instance, the guarded Alice tier at 10000 dollars. -/
theorem claim8_threshold_rendering_witness :
    ifLine 1000000 ∈ snippetLines
        ([⟨strL "Alice", strL "CEO", 1000000, none⟩] ++ [⟨strL "Bob", strL "VP", 50000, none⟩])
    ∧ twoDecString (1000000 - 1) = strL "9999.99" := by
  have h := claim8_threshold_rendering [⟨strL "Alice", strL "CEO", 1000000, none⟩]
    ⟨strL "Bob", strL "VP", 50000, none⟩ ⟨strL "Alice", strL "CEO", 1000000, none⟩
    (List.mem_cons_self _ _)
  exact ⟨h.1, h.2.2⟩

/-- C9: build_handlebars on the empty tier list returns the empty string. -/
theorem claim9_empty_tiers : build_handlebars [] = [] := rfl

/-- C1 counterexample: a document with two occurrences of the tag pair has
BOTH occurrences rewritten (re.sub is called with no count), so the second
occurrence is not left character-for-character untouched as the claim
states: the result differs from the first-occurrence-only rewrite. -/
theorem claim1_first_only_cex :
    safe_replace_between_tags (strL "<a>x</a><a>y</a>") (strL "<a>") (strL "</a>") (strL "Z")
      = Except.ok (strL "<a>\nZ\n</a><a>\nZ\n</a>")
    ∧ strL "<a>\nZ\n</a><a>\nZ\n</a>" ≠ strL "<a>\nZ\n</a><a>y</a>" := by
  exact ⟨by decide, by decide⟩

/-- C1 (amended): for a document with two disjoint occurrences of the tag
pair (and no further matches in the surrounding regions), replace_between
rewrites EVERY occurrence, each with the same replacement text, rather than
only the first. -/
theorem claim1_all_occurrences_replaced (A B C s1 s2 e1 e2 i1 i2 s e inner : List Char)
    (hs1 : s.map Char.toLower = s1.map Char.toLower)
    (hs2 : s.map Char.toLower = s2.map Char.toLower)
    (he1 : e.map Char.toLower = e1.map Char.toLower)
    (he2 : e.map Char.toLower = e2.map Char.toLower)
    (hne : s ≠ [])
    (hA : ∀ p, p < A.length →
      ciStartsWith s
        ((A ++ (s1 ++ (i1 ++ (e1 ++ (B ++ (s2 ++ (i2 ++ (e2 ++ C)))))))).drop p)
        = false)
    (hI1 : ∀ p, p < i1.length →
      ciStartsWith e
        ((i1 ++ (e1 ++ (B ++ (s2 ++ (i2 ++ (e2 ++ C)))))).drop p) = false)
    (hB : ∀ p, p < B.length →
      ciStartsWith s ((B ++ (s2 ++ (i2 ++ (e2 ++ C)))).drop p) = false)
    (hI2 : ∀ p, p < i2.length →
      ciStartsWith e ((i2 ++ (e2 ++ C)).drop p) = false)
    (hC : findMatch s e C = none)
    (hbs : '\\' ∉ s) (hbe : '\\' ∉ e) (hbi : '\\' ∉ inner) :
    safe_replace_between_tags
        (A ++ (s1 ++ (i1 ++ (e1 ++ (B ++ (s2 ++ (i2 ++ (e2 ++ C)))))))) s e inner =
      Except.ok (A ++ ((s ++ '\n' :: inner ++ '\n' :: e) ++
        (B ++ ((s ++ '\n' :: inner ++ '\n' :: e) ++ C)))) :=
  replace_double A B C s1 s2 e1 e2 i1 i2 s e inner hs1 hs2 he1 he2 hne hA hI1 hB hI2 hC
    hbs hbe hbi

/-- C1 witness: concrete two-occurrence document, both spans rewritten. -/
theorem claim1_all_occurrences_replaced_witness :
    safe_replace_between_tags (strL "<a>x</a>Z<a>y</a>w") (strL "<a>") (strL "</a>") (strL "Q")
      = Except.ok (strL "<a>\nQ\n</a>Z<a>\nQ\n</a>w") :=
  claim1_all_occurrences_replaced [] (strL "Z") (strL "w") (strL "<a>") (strL "<a>")
    (strL "</a>") (strL "</a>") (strL "x") (strL "y") (strL "<a>") (strL "</a>") (strL "Q")
    (by decide) (by decide) (by decide) (by decide) (by decide) (by decide) (by decide)
    (by decide) (by decide) (by decide) (by decide) (by decide) (by decide)

/-- C3 counterexample: new_inner is NOT inserted verbatim for every possible
string: a new_inner of two backslashes is collapsed to a single backslash,
because re.sub treats the replacement as a template in which a double
backslash is an escape. -/
theorem claim3_backslash_cex :
    safe_replace_between_tags (strL "<a>x</a>") (strL "<a>") (strL "</a>") (strL "\\\\")
      = Except.ok (strL "<a>\n\\\n</a>")
    ∧ strL "<a>\n\\\n</a>" ≠ strL "<a>\n\\\\\n</a>" := by
  exact ⟨by decide, by decide⟩

/-- C3 (amended): for a document with a single occurrence of the tag pair,
the result is identical to the original outside the matched span, and the
span becomes start_tag, newline, new_inner, newline, end_tag — with
new_inner inserted verbatim provided new_inner and the tags contain no
backslash (backslashes are re.sub template escapes, see the
counterexample). -/
theorem claim3_single_span_replacement (A B s' e' i s e inner : List Char)
    (hs : s.map Char.toLower = s'.map Char.toLower)
    (he : e.map Char.toLower = e'.map Char.toLower)
    (hne : s ≠ [])
    (hA : ∀ p, p < A.length →
      ciStartsWith s ((A ++ (s' ++ (i ++ (e' ++ B)))).drop p) = false)
    (hI : ∀ p, p < i.length → ciStartsWith e ((i ++ (e' ++ B)).drop p) = false)
    (hB : findMatch s e B = none)
    (hbs : '\\' ∉ s) (hbe : '\\' ∉ e) (hbi : '\\' ∉ inner) :
    safe_replace_between_tags (A ++ (s' ++ (i ++ (e' ++ B)))) s e inner =
      Except.ok (A ++ ((s ++ '\n' :: inner ++ '\n' :: e) ++ B)) :=
  replace_single A B s' e' i s e inner hs he hne hA hI hB hbs hbe hbi

/-- C3 witness: concrete single-occurrence document. -/
theorem claim3_single_span_replacement_witness :
    safe_replace_between_tags (strL "ab<A>x</A>cd") (strL "<a>") (strL "</a>") (strL "hello")
      = Except.ok (strL "ab<a>\nhello\n</a>cd") :=
  claim3_single_span_replacement (strL "ab") (strL "cd") (strL "<A>") (strL "</A>")
    (strL "x") (strL "<a>") (strL "</a>") (strL "hello")
    (by decide) (by decide) (by decide) (by decide) (by decide) (by decide) (by decide)
    (by decide) (by decide)

/-- C4 counterexample: matching is case-insensitive, but the document's own
differently-cased tags are NOT preserved in the output: the matched span is
rewritten with the searched (argument) tags, so the original spelling
disappears from the result. -/
theorem claim4_original_casing_cex :
    safe_replace_between_tags (strL "<!-- START -->x<!-- END -->")
        (strL "<!-- start -->") (strL "<!-- end -->") (strL "Z")
      = Except.ok (strL "<!-- start -->\nZ\n<!-- end -->")
    ∧ hasSubstr (strL "<!-- START -->") (strL "<!-- start -->\nZ\n<!-- end -->") = false := by
  exact ⟨by decide, by decide⟩

/-- C4 (amended): tag matching is case-insensitive (the document may carry
the tags in any casing), and on success the output contains the searched
start_tag and end_tag arguments literally — the matched span is rebuilt
from the arguments, not from the document's original spelling. -/
theorem claim4_searched_tags_in_output (A B s' e' i s e inner : List Char)
    (hs : s.map Char.toLower = s'.map Char.toLower)
    (he : e.map Char.toLower = e'.map Char.toLower)
    (hne : s ≠ [])
    (hA : ∀ p, p < A.length →
      ciStartsWith s ((A ++ (s' ++ (i ++ (e' ++ B)))).drop p) = false)
    (hI : ∀ p, p < i.length → ciStartsWith e ((i ++ (e' ++ B)).drop p) = false)
    (hB : findMatch s e B = none)
    (hbs : '\\' ∉ s) (hbe : '\\' ∉ e) (hbi : '\\' ∉ inner) :
    safe_replace_between_tags (A ++ (s' ++ (i ++ (e' ++ B)))) s e inner =
      Except.ok (A ++ ((s ++ '\n' :: inner ++ '\n' :: e) ++ B))
    ∧ hasSubstr s (A ++ ((s ++ '\n' :: inner ++ '\n' :: e) ++ B)) = true
    ∧ hasSubstr e (A ++ ((s ++ '\n' :: inner ++ '\n' :: e) ++ B)) = true := by
  refine ⟨replace_single A B s' e' i s e inner hs he hne hA hI hB hbs hbe hbi, ?_, ?_⟩
  · have hshape : A ++ ((s ++ '\n' :: inner ++ '\n' :: e) ++ B)
        = A ++ (s ++ (('\n' :: inner ++ '\n' :: e) ++ B)) := by
      simp [List.append_assoc]
    rw [hshape]
    exact hasSubstr_of_decomp s A _
  · have hshape : A ++ ((s ++ '\n' :: inner ++ '\n' :: e) ++ B)
        = (A ++ (s ++ ('\n' :: (inner ++ ['\n'])))) ++ (e ++ B) := by
      simp [List.append_assoc]
    rw [hshape]
    exact hasSubstr_of_decomp e _ B

/-- C4 witness: the document carries upper-case tags, the search uses
lower-case tags; the call succeeds and the output carries the searched
lower-case tags. -/
theorem claim4_searched_tags_in_output_witness :
    safe_replace_between_tags (strL "<!-- START -->x<!-- END -->")
        (strL "<!-- start -->") (strL "<!-- end -->") (strL "Z")
      = Except.ok (strL "<!-- start -->\nZ\n<!-- end -->")
    ∧ hasSubstr (strL "<!-- start -->") (strL "<!-- start -->\nZ\n<!-- end -->") = true
    ∧ hasSubstr (strL "<!-- end -->") (strL "<!-- start -->\nZ\n<!-- end -->") = true :=
  claim4_searched_tags_in_output [] [] (strL "<!-- START -->") (strL "<!-- END -->")
    (strL "x") (strL "<!-- start -->") (strL "<!-- end -->") (strL "Z")
    (by decide) (by decide) (by decide) (by decide) (by decide) (by decide) (by decide)
    (by decide) (by decide)

/-- C5: replace_between fails with the ValueError message naming both
searched tags exactly when no case-insensitive span exists in the document;
in particular the search fails whenever either tag is absent; and the error
message is literally "Tags not found: ", the start tag, " ... ", the end
tag. On the error path no document is produced. -/
theorem claim5_error_iff_no_span (doc s e inner : List Char) :
    (safe_replace_between_tags doc s e inner = Except.error (tagsNotFoundMsg s e)
      ↔ findMatch s e doc = none)
    ∧ (ciHasSubstr s doc = false ∨ ciHasSubstr e doc = false →
        findMatch s e doc = none)
    ∧ tagsNotFoundMsg s e = strL "Tags not found: " ++ (s ++ (strL " ... " ++ e)) := by
  refine ⟨?_, ?_, rfl⟩
  · cases hm : findMatch s e doc with
    | none => simp [safe_replace_between_tags, hm]
    | some m => simp [safe_replace_between_tags, hm]
  · intro h
    rcases h with h | h
    · exact findMatch_none_of_no_start s e doc h
    · exact findMatch_none_of_no_end s e doc h

/-- C5 witness: a document with neither tag fails with the message naming
both tags. -/
theorem claim5_error_iff_no_span_witness :
    safe_replace_between_tags (strL "xy") (strL "<a>") (strL "</a>") (strL "Z")
      = Except.error (tagsNotFoundMsg (strL "<a>") (strL "</a>")) :=
  (claim5_error_iff_no_span (strL "xy") (strL "<a>") (strL "</a>") (strL "Z")).1.mpr
    ((claim5_error_iff_no_span (strL "xy") (strL "<a>") (strL "</a>") (strL "Z")).2.1
      (Or.inl (by decide)))

/-- C6 counterexample: the round trip fails when the end tag occurs inside
the generated snippet: with end tag "<br>" (which every tier block
contains), re-extraction stops at the snippet's own "<br>" line and returns
a strict prefix, not the snippet with its two added newlines. The premises
of the claim hold (non-empty tier list, document contains the tag pair). -/
theorem claim6_roundtrip_cex :
    safe_replace_between_tags (strL "<s>q<br>") (strL "<s>") (strL "<br>")
        (build_handlebars [⟨strL "N", strL "T", 1000, none⟩])
      = Except.ok (strL "<s>\n<p>\nN\n<br>\nT\n</p>\n<br>")
    ∧ extract_between (strL "<s>\n<p>\nN\n<br>\nT\n</p>\n<br>") (strL "<s>") (strL "<br>")
      = some (strL "\n<p>\nN\n")
    ∧ strL "\n<p>\nN\n"
      ≠ '\n' :: (build_handlebars [⟨strL "N", strL "T", 1000, none⟩] ++ ['\n']) := by
  exact ⟨by decide, by decide, by decide⟩

/-- C6 (amended): the round trip holds under the conditions the
counterexample forces: the snippet region (newline, snippet, newline) must
itself be free of case-insensitive end-tag occurrences, the leading region
must stay free of start-tag matches in the rewritten document, and the tags
and snippet must be backslash-free. Then replacing and re-extracting
between the same tags yields exactly the snippet with one newline prepended
and one appended. -/
theorem claim6_roundtrip (A B s' e' i s e : List Char) (tiers : List Tier)
    (_hts : tiers ≠ [])
    (hs : s.map Char.toLower = s'.map Char.toLower)
    (he : e.map Char.toLower = e'.map Char.toLower)
    (hne : s ≠ [])
    (hA : ∀ p, p < A.length →
      ciStartsWith s ((A ++ (s' ++ (i ++ (e' ++ B)))).drop p) = false)
    (hI : ∀ p, p < i.length → ciStartsWith e ((i ++ (e' ++ B)).drop p) = false)
    (hB : findMatch s e B = none)
    (hA2 : ∀ p, p < A.length →
      ciStartsWith s
        ((A ++ (s ++ (('\n' :: (build_handlebars tiers ++ ['\n'])) ++ (e ++ B)))).drop p)
        = false)
    (hSnip : ∀ p, p < ('\n' :: (build_handlebars tiers ++ ['\n'])).length →
      ciStartsWith e
        ((('\n' :: (build_handlebars tiers ++ ['\n'])) ++ (e ++ B)).drop p) = false)
    (hbs : '\\' ∉ s) (hbe : '\\' ∉ e) (hbsn : '\\' ∉ build_handlebars tiers) :
    safe_replace_between_tags (A ++ (s' ++ (i ++ (e' ++ B)))) s e (build_handlebars tiers)
      = Except.ok (A ++ (s ++ (('\n' :: (build_handlebars tiers ++ ['\n'])) ++ (e ++ B))))
    ∧ extract_between
        (A ++ (s ++ (('\n' :: (build_handlebars tiers ++ ['\n'])) ++ (e ++ B)))) s e
      = some ('\n' :: (build_handlebars tiers ++ ['\n'])) := by
  constructor
  · rw [replace_single A B s' e' i s e (build_handlebars tiers) hs he hne hA hI hB hbs hbe hbsn]
    simp [List.append_assoc]
  · have hguard2 : ciStartsWith s
        (s ++ (('\n' :: (build_handlebars tiers ++ ['\n'])) ++ (e ++ B))) = true :=
      ciStartsWith_of_map_eq s s _ rfl
    have hdrop2 : (s ++ (('\n' :: (build_handlebars tiers ++ ['\n'])) ++ (e ++ B))).drop s.length
        = ('\n' :: (build_handlebars tiers ++ ['\n'])) ++ (e ++ B) :=
      drop_of_map_eq s s _ rfl
    have hsplit2 : splitAtEndTag e (('\n' :: (build_handlebars tiers ++ ['\n'])) ++ (e ++ B))
        = some ('\n' :: (build_handlebars tiers ++ ['\n']), B) :=
      splitAtEndTag_found e e _ B rfl hSnip
    rw [extract_between, findMatch_skip s e A _ hA2,
      findMatch_pos s e _ _ B hguard2 (by rw [hdrop2]; exact hsplit2)]
    simp

/-- C6 witness: concrete round trip with tags that do not occur in the
snippet. -/
theorem claim6_roundtrip_witness :
    safe_replace_between_tags (strL "x <S>old<E> y") (strL "<s>") (strL "<e>")
        (build_handlebars [⟨strL "N", strL "T", 1000, none⟩])
      = Except.ok (strL "x <s>\n<p>\nN\n<br>\nT\n</p>\n<e> y")
    ∧ extract_between (strL "x <s>\n<p>\nN\n<br>\nT\n</p>\n<e> y") (strL "<s>") (strL "<e>")
      = some (strL "\n<p>\nN\n<br>\nT\n</p>\n") :=
  claim6_roundtrip (strL "x ") (strL " y") (strL "<S>") (strL "<E>") (strL "old")
    (strL "<s>") (strL "<e>") [⟨strL "N", strL "T", 1000, none⟩]
    (List.cons_ne_nil _ _) (by decide) (by decide) (by decide) (by decide) (by decide)
    (by decide) (by decide) (by decide) (by decide) (by decide) (by decide)

/-- C10: list_text_files_in_folder never propagates an error: when the
folder read raised it returns the empty list, and a file is in its result
exactly when the read succeeded with a list containing that entry, the
entry's type is "file", and its lowercased name ends in ".txt". -/
theorem claim10_listing (r : Except (List Char) (List ContentFile)) (f : ContentFile) :
    (∀ msg, r = Except.error msg → list_text_files_in_folder r = [])
    ∧ (f ∈ list_text_files_in_folder r ↔
        ∃ l, r = Except.ok l ∧ f ∈ l ∧ f.type = strL "file"
          ∧ List.isSuffixOf (strL ".txt") (f.name.map Char.toLower) = true) := by
  constructor
  · intro msg hr
    rw [hr]
    rfl
  · cases r with
    | error msg => simp [list_text_files_in_folder]
    | ok l =>
      constructor
      · intro hmem
        simp only [list_text_files_in_folder] at hmem
        have h2 := List.mem_filter.mp hmem
        have h3 := h2.2
        rw [Bool.and_eq_true] at h3
        exact ⟨l, rfl, h2.1, beq_iff_eq.mp h3.1, h3.2⟩
      · rintro ⟨l2, hl2, hmem, htype, hsuf⟩
        have hll : l2 = l := by
          injection hl2 with h
          exact h.symm
        subst hll
        simp only [list_text_files_in_folder]
        apply List.mem_filter.mpr
        refine ⟨hmem, ?_⟩
        rw [Bool.and_eq_true]
        exact ⟨beq_iff_eq.mpr htype, hsuf⟩

/-- C10 witness: a matching entry is kept (case-insensitive .txt, type
"file"), and an errored folder read yields the empty list. -/
theorem claim10_listing_witness :
    (⟨strL "a.TXT", strL "file"⟩ : ContentFile) ∈ list_text_files_in_folder
        (Except.ok [⟨strL "a.TXT", strL "file"⟩, ⟨strL "b.txt", strL "dir"⟩,
          ⟨strL "c.md", strL "file"⟩])
    ∧ list_text_files_in_folder (Except.error (strL "boom")) = [] := by
  constructor
  · exact (claim10_listing _ _).2.mpr
      ⟨_, rfl, List.mem_cons_self _ _, rfl, by decide⟩
  · exact (claim10_listing (Except.error (strL "boom")) ⟨[], []⟩).1 (strL "boom") rfl

